import Mathlib

/-
Verification of the `remiges-tech/await` concurrency toolkit (Go) against its
natural-language specification.  The Go source is shallowly embedded:

* Go `error` values are modelled by the inductive `GoError`.  Distinct
  `errors.New` sentinels are distinct constructors (or `base` values with
  distinct identifiers); wrapper types (`PermanentError`, `RetryError`,
  `AggregateError`) are constructors carrying their fields.  Structural
  equality of `GoError` stands in for Go's interface-value identity.
* `errors.Is` is modelled by `errorsIs`, walking the unwrap chain exactly the
  way the Go standard library does for these types: value equality first,
  then the type's own `Is` method (only `PermanentError` has one, and it
  tests `target == ErrPermanent`), then `Unwrap`.
* `time.Duration` is modelled by `ℤ` (nanoseconds).  The single float64
  computation in the source, `time.Duration(float64(delay) * e.Multiplier)`
  in `ExponentialBackoff.NextDelay`, is modelled over `ℚ` with the Go
  float-to-integer conversion's truncation toward zero; on the inputs the
  specification discusses (integral multipliers, delays far below 2^53) the
  float64 arithmetic is exact, so the rational model agrees with it.
-/

inductive GoError where
  | base : Nat → GoError
  | errNoTasks : GoError
  | errMaxAttemptsInvalid : GoError
  | errPermanent : GoError
  | ctxCanceled : GoError
  | permanentError : GoError → GoError
  | retryError : Option GoError → ℤ → GoError
  | aggregateError : List GoError → GoError

mutual

/-- Structural equality of modelled Go error values (stands in for Go
interface-value identity). -/
def goErrBeq : GoError → GoError → Bool
  | .base n, .base m => n == m
  | .errNoTasks, .errNoTasks => true
  | .errMaxAttemptsInvalid, .errMaxAttemptsInvalid => true
  | .errPermanent, .errPermanent => true
  | .ctxCanceled, .ctxCanceled => true
  | .permanentError a, .permanentError b => goErrBeq a b
  | .retryError la na, .retryError lb nb => goErrOptBeq la lb && (na == nb)
  | .aggregateError la, .aggregateError lb => goErrListBeq la lb
  | _, _ => false

/-- Equality test on optional (nilable) error values. -/
def goErrOptBeq : Option GoError → Option GoError → Bool
  | none, none => true
  | some a, some b => goErrBeq a b
  | _, _ => false

/-- Equality test on lists of error values. -/
def goErrListBeq : List GoError → List GoError → Bool
  | [], [] => true
  | x :: xs, y :: ys => goErrBeq x y && goErrListBeq xs ys
  | _, _ => false

end

mutual

def goErrBeq_iff : ∀ (a b : GoError), goErrBeq a b = true ↔ a = b
  | .base n, b => by cases b <;> simp [goErrBeq]
  | .errNoTasks, b => by cases b <;> simp [goErrBeq]
  | .errMaxAttemptsInvalid, b => by cases b <;> simp [goErrBeq]
  | .errPermanent, b => by cases b <;> simp [goErrBeq]
  | .ctxCanceled, b => by cases b <;> simp [goErrBeq]
  | .permanentError a, b => by
      cases b <;> simp [goErrBeq]
      exact goErrBeq_iff a _
  | .retryError la na, b => by
      cases b <;> simp [goErrBeq]
      rw [goErrOptBeq_iff]
      tauto
  | .aggregateError l, b => by
      cases b <;> simp [goErrBeq]
      exact goErrListBeq_iff l _

def goErrOptBeq_iff : ∀ (a b : Option GoError), goErrOptBeq a b = true ↔ a = b
  | none, b => by cases b <;> simp [goErrOptBeq]
  | some a, b => by
      cases b <;> simp [goErrOptBeq]
      exact goErrBeq_iff a _

def goErrListBeq_iff : ∀ (a b : List GoError), goErrListBeq a b = true ↔ a = b
  | [], b => by cases b <;> simp [goErrListBeq]
  | x :: xs, b => by
      cases b <;> simp [goErrListBeq]
      rw [goErrBeq_iff, goErrListBeq_iff]

end

instance : BEq GoError := ⟨goErrBeq⟩

instance : LawfulBEq GoError where
  eq_of_beq h := (goErrBeq_iff _ _).1 h
  rfl := (goErrBeq_iff _ _).2 rfl

instance : DecidableEq GoError :=
  fun a b => decidable_of_iff (goErrBeq a b = true) (goErrBeq_iff a b)

instance {ε α : Type} [DecidableEq ε] [DecidableEq α] : DecidableEq (Except ε α) :=
  fun a b =>
    match a, b with
    | .ok x, .ok y => decidable_of_iff (x = y) (by simp)
    | .error x, .error y => decidable_of_iff (x = y) (by simp)
    | .ok _, .error _ => isFalse (by simp)
    | .error _, .ok _ => isFalse (by simp)

mutual

/-- Model of Go `errors.Is(e, t)`: value equality, then the receiver's `Is`
method (`PermanentError.Is` tests `target == ErrPermanent`), then `Unwrap`
(single for `PermanentError`/`RetryError`, multi for `AggregateError`). -/
def errorsIs (e t : GoError) : Bool :=
  (e == t) ||
  (match e with
   | .permanentError inner => (t == GoError.errPermanent) || errorsIs inner t
   | .retryError l _ =>
     (match l with
      | some x => errorsIs x t
      | none => false)
   | .aggregateError errs => anyIs errs t
   | _ => false)

/-- Model of the multi-error branch of `errors.Is` over `AggregateError.Unwrap`. -/
def anyIs (es : List GoError) (t : GoError) : Bool :=
  match es with
  | [] => false
  | x :: xs => errorsIs x t || anyIs xs t

end

namespace Retry

/-- Model of `retry.IsPermanentError`: `errors.Is(err, ErrPermanent)`. -/
def IsPermanentError (err : GoError) : Bool :=
  errorsIs err GoError.errPermanent

/-- Model of `retry.Permanent`: wrap a non-nil error in `PermanentError`. -/
def Permanent (err : Option GoError) : Option GoError :=
  match err with
  | none => none
  | some e => some (GoError.permanentError e)

/-- Model of `retry.ExponentialBackoff`.  Delays are nanoseconds (`ℤ`), the
float64 multiplier is modelled exactly over `ℚ`. -/
structure ExponentialBackoff where
  InitialDelay : ℤ
  Multiplier : ℚ
  MaxDelay : ℤ

/-- Go conversion `time.Duration(q)` from a real-valued product: truncation
toward zero (`float64` to `int64` conversion). -/
def goTrunc (q : ℚ) : ℤ :=
  if 0 ≤ q then q.floor else -(-q).floor

/-- The loop body of `ExponentialBackoff.NextDelay`: starting from `d`, run
`n` iterations of `delay = time.Duration(float64(delay) * m)`, returning
`cap` as soon as `MaxDelay > 0 && delay > MaxDelay`. -/
def expLoop (m : ℚ) (cap : ℤ) : Nat → ℤ → ℤ
  | 0, d => d
  | n + 1, d =>
    let d2 := goTrunc ((d : ℚ) * m)
    if 0 < cap ∧ cap < d2 then cap else expLoop m cap n d2

/-- Model of `ExponentialBackoff.NextDelay`. -/
def ExponentialBackoff.NextDelay (e : ExponentialBackoff) (attempt : ℤ) : ℤ :=
  if attempt ≤ 0 then 0
  else expLoop e.Multiplier e.MaxDelay (attempt - 1).toNat e.InitialDelay

/-- Model of `retry.LinearBackoff`. -/
structure LinearBackoff where
  InitialDelay : ℤ
  Increment : ℤ

/-- Model of `LinearBackoff.NextDelay`. -/
def LinearBackoff.NextDelay (l : LinearBackoff) (attempt : ℤ) : ℤ :=
  if attempt ≤ 0 then 0 else l.InitialDelay + (attempt - 1) * l.Increment

/-- Model of `retry.ConstantDelay`. -/
structure ConstantDelay where
  Delay : ℤ

/-- Model of `ConstantDelay.NextDelay`. -/
def ConstantDelay.NextDelay (c : ConstantDelay) (attempt : ℤ) : ℤ :=
  if attempt ≤ 0 then 0 else c.Delay

/-- Model of `retry.CustomStrategy`: user-supplied delay and continuation
functions, either of which may be nil. -/
structure CustomStrategy where
  DelayFunc : Option (ℤ → ℤ)
  ShouldRetryFunc : Option (ℤ → GoError → Bool)

/-- Model of `CustomStrategy.NextDelay`: nil delay function yields 0. -/
def CustomStrategy.NextDelay (c : CustomStrategy) (attempt : ℤ) : ℤ :=
  match c.DelayFunc with
  | none => 0
  | some f => f attempt

/-- Model of `CustomStrategy.ShouldRetry`: nil function yields true. -/
def CustomStrategy.ShouldRetry (c : CustomStrategy) (attempt : ℤ) (err : GoError) : Bool :=
  match c.ShouldRetryFunc with
  | none => true
  | some f => f attempt err

/-- Model of the `retry.Strategy` interface: one variant per implementer in
the source (`NoDelay` carries no fields). -/
inductive Strategy where
  | exponential : ExponentialBackoff → Strategy
  | linear : LinearBackoff → Strategy
  | constant : ConstantDelay → Strategy
  | noDelay : Strategy
  | custom : CustomStrategy → Strategy

/-- Interface dispatch for `NextDelay` (`NoDelay.NextDelay` is always 0). -/
def Strategy.NextDelay : Strategy → ℤ → ℤ
  | .exponential e, a => e.NextDelay a
  | .linear l, a => l.NextDelay a
  | .constant c, a => c.NextDelay a
  | .noDelay, _ => 0
  | .custom c, a => c.NextDelay a

/-- Interface dispatch for `ShouldRetry`: every built-in strategy returns
`!IsPermanentError(err)`; `CustomStrategy` delegates. -/
def Strategy.ShouldRetry : Strategy → ℤ → GoError → Bool
  | .exponential _, _, err => !IsPermanentError err
  | .linear _, _, err => !IsPermanentError err
  | .constant _, _, err => !IsPermanentError err
  | .noDelay, _, err => !IsPermanentError err
  | .custom c, a, err => c.ShouldRetry a err

/-- A strategy shipped by the library (not `CustomStrategy`). -/
def Strategy.isBuiltin : Strategy → Bool
  | .custom _ => false
  | _ => true

/-- Model of `retry.Options`.  The `OnRetry` callback's own behaviour cannot
influence `Do` (it is a side-effecting callback), so the model records only
whether a callback is configured; `Do`'s log lists the calls it receives. -/
structure Options where
  Strategy : Strategy
  MaxAttempts : ℤ
  OnRetry : Bool
  RetryIf : Option (GoError → Bool)

/-- Model of the unexported `shouldRetryError`: nil `RetryIf` means always
retryable. -/
def shouldRetryError (opts : Options) (err : GoError) : Bool :=
  match opts.RetryIf with
  | none => true
  | some p => p err

/-- Model of the unexported `isLastAttempt`: `attempt >= maxAttempts`. -/
def isLastAttempt (attempt maxAttempts : ℤ) : Bool :=
  maxAttempts ≤ attempt

/-- The cancellation scope as `Do` can observe it: `errAt a` is the value of
`ctx.Err()` when `Do` checks it at the top of attempt `a`; `delayCancel a` is
the outcome of `waitForRetry` after attempt `a` (`some c` when the scope is
cancelled during the inter-attempt delay with cancellation error `c`, `none`
when the timer fires first). -/
structure Ctx where
  errAt : ℤ → Option GoError
  delayCancel : ℤ → Option GoError

/-- Everything observable about one `Do` call: the returned value or error,
how many times the task was invoked, the `(attempt, err)` arguments passed to
the `OnRetry` callback, and the delays handed to `waitForRetry`. -/
structure DoLog (T : Type) where
  result : Except GoError T
  invocations : Nat
  onRetryCalls : List (ℤ × GoError)
  waits : List ℤ
deriving DecidableEq

/-- The attempt loop of `retry.Do`, transcribed from the source.  `fuel` is
the number of loop iterations still permitted by `attempt <= MaxAttempts`
(the `fuel = 0` exit builds the same `RetryError` the loop-exit line does);
`fn a` is the task's deterministic outcome on invocation number `a`. -/
def doAux {T : Type} (opts : Options) (ctx : Ctx) (fn : ℤ → Except GoError T) :
    Nat → ℤ → Option GoError → DoLog T
  | 0, _, lastErr => ⟨.error (.retryError lastErr opts.MaxAttempts), 0, [], []⟩
  | fuel + 1, attempt, _ =>
    match ctx.errAt attempt with
    | some c => ⟨.error c, 0, [], []⟩
    | none =>
      match fn attempt with
      | .ok v => ⟨.ok v, 1, [], []⟩
      | .error err =>
        if !shouldRetryError opts err then ⟨.error err, 1, [], []⟩
        else if !opts.Strategy.ShouldRetry attempt err then ⟨.error err, 1, [], []⟩
        else if isLastAttempt attempt opts.MaxAttempts then
          ⟨.error (.retryError (some err) opts.MaxAttempts), 1, [], []⟩
        else
          let calls := if opts.OnRetry then [(attempt, err)] else []
          let d := opts.Strategy.NextDelay attempt
          match ctx.delayCancel attempt with
          | some c => ⟨.error c, 1, calls, [d]⟩
          | none =>
            let rest := doAux opts ctx fn fuel (attempt + 1) (some err)
            ⟨rest.result, 1 + rest.invocations, calls ++ rest.onRetryCalls, d :: rest.waits⟩

/-- Model of `retry.Do`: validate `MaxAttempts`, then run the attempt loop
starting at attempt 1. -/
def Do {T : Type} (opts : Options) (ctx : Ctx) (fn : ℤ → Except GoError T) : DoLog T :=
  if opts.MaxAttempts ≤ 0 then ⟨.error .errMaxAttemptsInvalid, 0, [], []⟩
  else doAux opts ctx fn opts.MaxAttempts.toNat 1 none

end Retry

namespace Await

/-- Model of `await.Result`: the per-task value/error pair. -/
structure Result (T : Type) where
  value : T
  err : Option GoError
deriving DecidableEq

/-- One slot of the result slice of `All`/`AllSettled`: the goroutine for
index `i` first polls the shared scope (`done i` is the `ctx.Err()` it
observes if its `select` takes the `ctx.Done()` branch) and otherwise stores
the task's own outcome verbatim.  Each task is deterministic for the call and
is represented by the `Result` it returns. -/
def settleSlots {T : Type} [Inhabited T] (done : Nat → Option GoError) :
    Nat → List (Result T) → List (Result T)
  | _, [] => []
  | i, t :: ts =>
    (match done i with
     | some c => ⟨default, some c⟩
     | none => t) :: settleSlots done (i + 1) ts

/-- Model of the settle-style `await.All`: empty input fails with
`ErrNoTasks`, a scope already cancelled before launch (`ctxErr`) fails with
that cancellation error, and otherwise every task's outcome is returned in
input order. -/
def All {T : Type} [Inhabited T] (ctxErr : Option GoError)
    (done : Nat → Option GoError) (tasks : List (Result T)) :
    Except GoError (List (Result T)) :=
  if tasks.length = 0 then .error .errNoTasks
  else
    match ctxErr with
    | some c => .error c
    | none => .ok (settleSlots done 0 tasks)

/-- Model of `await.AllSettled`: no function-level error at all; empty input
yields the empty slice. -/
def AllSettled {T : Type} [Inhabited T] (done : Nat → Option GoError)
    (tasks : List (Result T)) : List (Result T) :=
  settleSlots done 0 tasks

/-- The receive loop of `await.Any`: read settled outcomes in completion
order, return the first success, otherwise append each failure to the
accumulator in observation order. -/
def anyLoop {T : Type} [Inhabited T] : List (Result T) → List GoError → T × Option GoError
  | [], acc => (default, some (.aggregateError acc))
  | r :: rest, acc =>
    match r.err with
    | none => (r.value, none)
    | some e => anyLoop rest (acc ++ [e])

/-- Model of `await.Any`.  `completions` lists the tasks' settled outcomes in
completion order (the order results arrive on the buffered channel, one per
task); the empty list models `len(tasks) == 0`. -/
def Any {T : Type} [Inhabited T] (completions : List (Result T)) : T × Option GoError :=
  if completions.length = 0 then (default, some .errNoTasks)
  else anyLoop completions []

end Await

/-
Theorems.  Claim theorems are named `claim_C<n>...`; auxiliary lemmas carry
ordinary names.
-/

lemma rat_floor_eq_intFloor (q : ℚ) : q.floor = ⌊q⌋ := by
  rw [Rat.floor_def', Rat.floor_def]

lemma goTrunc_of_nonneg (q : ℚ) (h : 0 ≤ q) : Retry.goTrunc q = ⌊q⌋ := by
  simp only [Retry.goTrunc, if_pos h, rat_floor_eq_intFloor]

lemma goTrunc_nonneg (q : ℚ) (h : 0 ≤ q) : 0 ≤ Retry.goTrunc q := by
  rw [goTrunc_of_nonneg q h]
  exact Int.floor_nonneg.2 h

lemma le_goTrunc (z : ℤ) (q : ℚ) (hq : 0 ≤ q) (h : (z : ℚ) ≤ q) : z ≤ Retry.goTrunc q := by
  rw [goTrunc_of_nonneg q hq]
  exact Int.le_floor.2 h

/-- The clamped-recurrence characterisation of the `NextDelay` loop: one more
iteration equals the previous value multiplied and clamped to the cap. -/
lemma expLoop_min (m : ℚ) (cap : ℤ) (hm : 1 ≤ m) (hcap : 0 < cap) :
    ∀ (n : Nat) (d : ℤ), 0 ≤ d →
      Retry.expLoop m cap (n + 1) d =
        min (Retry.goTrunc ((Retry.expLoop m cap n d : ℚ) * m)) cap
  | 0, d, hd => by
    simp only [Retry.expLoop]
    by_cases h : cap < Retry.goTrunc ((d : ℚ) * m)
    · rw [if_pos ⟨hcap, h⟩, min_eq_right (le_of_lt h)]
    · rw [if_neg (by tauto), min_eq_left (not_lt.mp h)]
  | n + 1, d, hd => by
    have hm0 : (0 : ℚ) ≤ m := le_trans zero_le_one hm
    have hdm : (0 : ℚ) ≤ (d : ℚ) * m := mul_nonneg (by exact_mod_cast hd) hm0
    have hd2 : 0 ≤ Retry.goTrunc ((d : ℚ) * m) := goTrunc_nonneg _ hdm
    by_cases h : cap < Retry.goTrunc ((d : ℚ) * m)
    · have hl : Retry.expLoop m cap (n + 1 + 1) d = cap := by
        rw [show Retry.expLoop m cap (n + 1 + 1) d =
              (if 0 < cap ∧ cap < Retry.goTrunc ((d : ℚ) * m) then cap
               else Retry.expLoop m cap (n + 1) (Retry.goTrunc ((d : ℚ) * m))) from rfl]
        rw [if_pos ⟨hcap, h⟩]
      have hr : Retry.expLoop m cap (n + 1) d = cap := by
        rw [show Retry.expLoop m cap (n + 1) d =
              (if 0 < cap ∧ cap < Retry.goTrunc ((d : ℚ) * m) then cap
               else Retry.expLoop m cap n (Retry.goTrunc ((d : ℚ) * m))) from rfl]
        rw [if_pos ⟨hcap, h⟩]
      rw [hl, hr]
      have hcm : (cap : ℚ) ≤ (cap : ℚ) * m :=
        le_mul_of_one_le_right (by exact_mod_cast le_of_lt hcap) hm
      have : cap ≤ Retry.goTrunc ((cap : ℚ) * m) :=
        le_goTrunc cap _ (le_trans (by exact_mod_cast le_of_lt hcap) hcm) hcm
      rw [min_eq_right this]
    · have hl : Retry.expLoop m cap (n + 1 + 1) d =
          Retry.expLoop m cap (n + 1) (Retry.goTrunc ((d : ℚ) * m)) := by
        rw [show Retry.expLoop m cap (n + 1 + 1) d =
              (if 0 < cap ∧ cap < Retry.goTrunc ((d : ℚ) * m) then cap
               else Retry.expLoop m cap (n + 1) (Retry.goTrunc ((d : ℚ) * m))) from rfl]
        rw [if_neg (by tauto)]
      have hr : Retry.expLoop m cap (n + 1) d =
          Retry.expLoop m cap n (Retry.goTrunc ((d : ℚ) * m)) := by
        rw [show Retry.expLoop m cap (n + 1) d =
              (if 0 < cap ∧ cap < Retry.goTrunc ((d : ℚ) * m) then cap
               else Retry.expLoop m cap n (Retry.goTrunc ((d : ℚ) * m))) from rfl]
        rw [if_neg (by tauto)]
      rw [hl, hr]
      exact expLoop_min m cap hm hcap n (Retry.goTrunc ((d : ℚ) * m)) hd2

/-- Claim C10: `ExponentialBackoff.NextDelay` applies the `maxDelayCap` clamp
only from attempt 2 onward — attempt 1 returns `InitialDelay` unmodified even
when it exceeds `MaxDelay` — and every attempt `<= 0` yields a zero delay. -/
theorem claim_C10_nextDelay_attempt_one_unclamped (e : Retry.ExponentialBackoff) :
    e.NextDelay 1 = e.InitialDelay ∧ ∀ a : ℤ, a ≤ 0 → e.NextDelay a = 0 := by
  constructor
  · rw [Retry.ExponentialBackoff.NextDelay, if_neg (by norm_num)]
    norm_num [Retry.expLoop]
  · intro a ha
    rw [Retry.ExponentialBackoff.NextDelay, if_pos ha]

/-- Witness for C10 at a configuration whose `InitialDelay` exceeds
`MaxDelay`: attempt 1 still yields `InitialDelay`, attempt `-3` yields 0. -/
theorem claim_C10_witness :
    ((1000000000 : ℤ) < 2000000000 ∧
      Retry.ExponentialBackoff.NextDelay ⟨2000000000, 2, 1000000000⟩ 1 = 2000000000) ∧
    Retry.ExponentialBackoff.NextDelay ⟨2000000000, 2, 1000000000⟩ (-3) = 0 :=
  ⟨⟨by norm_num, (claim_C10_nextDelay_attempt_one_unclamped ⟨2000000000, 2, 1000000000⟩).1⟩,
   (claim_C10_nextDelay_attempt_one_unclamped ⟨2000000000, 2, 1000000000⟩).2 (-3) (by norm_num)⟩

/-- Claim C9: every built-in strategy's `ShouldRetry` equals
`!IsPermanentError err` for every attempt and error — false exactly on
permanent errors, never depending on the attempt count or other error
content — and a `CustomStrategy` with nil `DelayFunc` yields zero delay for
every attempt, while a nil `ShouldRetryFunc` yields true for every attempt
and error. -/
theorem claim_C9_builtin_shouldRetry_permanent_only :
    ∀ (a : ℤ) (err : GoError) (e : Retry.ExponentialBackoff) (l : Retry.LinearBackoff)
      (c : Retry.ConstantDelay) (df : Option (ℤ → ℤ)) (rf : Option (ℤ → GoError → Bool)),
      (Retry.Strategy.exponential e).ShouldRetry a err = !Retry.IsPermanentError err ∧
      (Retry.Strategy.linear l).ShouldRetry a err = !Retry.IsPermanentError err ∧
      (Retry.Strategy.constant c).ShouldRetry a err = !Retry.IsPermanentError err ∧
      Retry.Strategy.noDelay.ShouldRetry a err = !Retry.IsPermanentError err ∧
      (Retry.Strategy.custom ⟨none, rf⟩).NextDelay a = 0 ∧
      (Retry.Strategy.custom ⟨df, none⟩).ShouldRetry a err = true := by
  intro a err e l c df rf
  exact ⟨rfl, rfl, rfl, rfl, rfl, rfl⟩

/-- Claim C7: `ExponentialBackoff.NextDelay` returns `InitialDelay` for
attempt 1 and thereafter the previous delay multiplied by the multiplier,
clamped to the cap once exceeded (for a multiplier `>= 1`, a positive cap and
a nonnegative initial delay, as in the specification's backoff regime); in
particular 100ms/x2/cap-1s yields 100ms, 200ms, 400ms, 800ms, 1s for
attempts 1-5. -/
theorem claim_C7_exponential_backoff_schedule (e : Retry.ExponentialBackoff)
    (h1 : 0 ≤ e.InitialDelay) (h2 : 1 ≤ e.Multiplier) (h3 : 0 < e.MaxDelay) :
    e.NextDelay 1 = e.InitialDelay ∧
    (∀ a : ℤ, 1 ≤ a →
      e.NextDelay (a + 1) =
        min (Retry.goTrunc ((e.NextDelay a : ℚ) * e.Multiplier)) e.MaxDelay) ∧
    (Retry.ExponentialBackoff.NextDelay ⟨100000000, 2, 1000000000⟩ 1 = 100000000 ∧
     Retry.ExponentialBackoff.NextDelay ⟨100000000, 2, 1000000000⟩ 2 = 200000000 ∧
     Retry.ExponentialBackoff.NextDelay ⟨100000000, 2, 1000000000⟩ 3 = 400000000 ∧
     Retry.ExponentialBackoff.NextDelay ⟨100000000, 2, 1000000000⟩ 4 = 800000000 ∧
     Retry.ExponentialBackoff.NextDelay ⟨100000000, 2, 1000000000⟩ 5 = 1000000000) := by
  refine ⟨?_, ?_, ?_⟩
  · rw [Retry.ExponentialBackoff.NextDelay, if_neg (by norm_num)]
    norm_num [Retry.expLoop]
  · intro a ha
    rw [Retry.ExponentialBackoff.NextDelay, if_neg (by omega),
        Retry.ExponentialBackoff.NextDelay, if_neg (by omega)]
    have hsucc : (a + 1 - 1).toNat = (a - 1).toNat + 1 := by omega
    rw [hsucc]
    exact expLoop_min e.Multiplier e.MaxDelay h2 h3 (a - 1).toNat e.InitialDelay h1
  · norm_num [Retry.ExponentialBackoff.NextDelay, Retry.expLoop, Retry.goTrunc,
      Rat.floor_def']

/-- Witness for C7 at the specification's own configuration. -/
theorem claim_C7_witness :
    Retry.ExponentialBackoff.NextDelay ⟨100000000, 2, 1000000000⟩ 1 = 100000000 ∧
    Retry.ExponentialBackoff.NextDelay ⟨100000000, 2, 1000000000⟩ 2 =
      min (Retry.goTrunc ((Retry.ExponentialBackoff.NextDelay ⟨100000000, 2, 1000000000⟩ 1 : ℚ) * 2))
        1000000000 := by
  have h := claim_C7_exponential_backoff_schedule ⟨100000000, 2, 1000000000⟩
    (by norm_num) (by norm_num) (by norm_num)
  exact ⟨h.1, h.2.1 1 (by norm_num)⟩

lemma settleSlots_mem {T : Type} [Inhabited T] (done : Nat → Option GoError) :
    ∀ (i : Nat) (ts : List (Await.Result T)) (r : Await.Result T),
      r ∈ Await.settleSlots done i ts →
      (∃ c, r = ⟨default, some c⟩) ∨ r ∈ ts := by
  intro i ts
  induction ts generalizing i with
  | nil => intro r hr; simp [Await.settleSlots] at hr
  | cons t ts ih =>
    intro r hr
    rw [Await.settleSlots] at hr
    rcases List.mem_cons.mp hr with h | h
    · cases hd : done i with
      | some c =>
        rw [hd] at h
        exact Or.inl ⟨c, h⟩
      | none =>
        rw [hd] at h
        exact Or.inr (h ▸ List.mem_cons_self t ts)
    · rcases ih (i + 1) r h with h2 | h2
      · exact Or.inl h2
      · exact Or.inr (List.mem_cons_of_mem t h2)

lemma settleSlots_id {T : Type} [Inhabited T] :
    ∀ (i : Nat) (ts : List (Await.Result T)),
      Await.settleSlots (fun _ => none) i ts = ts := by
  intro i ts
  induction ts generalizing i with
  | nil => rfl
  | cons t ts ih => rw [Await.settleSlots, ih]

lemma settleSlots_length {T : Type} [Inhabited T] (done : Nat → Option GoError) :
    ∀ (i : Nat) (ts : List (Await.Result T)),
      (Await.settleSlots done i ts).length = ts.length := by
  intro i ts
  induction ts generalizing i with
  | nil => rfl
  | cons t ts ih => rw [Await.settleSlots, List.length_cons, List.length_cons, ih]

/-- Claim C3: for a non-empty task sequence under an uncancelled scope the
settle-style `All` never returns a function-level error; it returns one
`Result` per task in input order, and each entry is exactly the task's own
outcome — in particular, if every task succeeds, every entry has nil `Err`
and the task's return value. -/
theorem claim_C3_all_settles_everything {T : Type} [Inhabited T]
    (tasks : List (Await.Result T)) (h : tasks ≠ []) :
    (∀ done : Nat → Option GoError, ∃ rs,
       Await.All none done tasks = .ok rs ∧ rs.length = tasks.length) ∧
    Await.All none (fun _ => none) tasks = .ok tasks := by
  have hlen : tasks.length ≠ 0 := by
    intro h0
    exact h (List.length_eq_zero.mp h0)
  constructor
  · intro done
    refine ⟨Await.settleSlots done 0 tasks, ?_, settleSlots_length done 0 tasks⟩
    simp only [Await.All]
    rw [if_neg hlen]
  · simp only [Await.All]
    rw [if_neg hlen, settleSlots_id]

/-- Witness for C3: two succeeding tasks come back verbatim, in order. -/
theorem claim_C3_witness :
    Await.All (T := Int) none (fun _ => none) [⟨7, none⟩, ⟨9, none⟩] =
      .ok [⟨7, none⟩, ⟨9, none⟩] :=
  (claim_C3_all_settles_everything [⟨7, none⟩, ⟨9, none⟩] (by simp)).2

/-- Claim C5: the settle-style `All` returns a function-level error exactly
for the two precondition violations — an empty task sequence fails with
`ErrNoTasks` and no results, a scope already cancelled before launch fails
with that scope's cancellation error and no results — and in every other
case it returns a result slice, not an error. -/
theorem claim_C5_all_function_level_errors {T : Type} [Inhabited T]
    (tasks : List (Await.Result T)) (c : GoError) (h : tasks ≠ []) :
    (∀ (ctxErr : Option GoError) (done : Nat → Option GoError),
       Await.All (T := T) ctxErr done [] = .error .errNoTasks) ∧
    (∀ done : Nat → Option GoError, Await.All (some c) done tasks = .error c) ∧
    (∀ done : Nat → Option GoError, ∃ rs, Await.All none done tasks = .ok rs) := by
  have hlen : tasks.length ≠ 0 := by
    intro h0
    exact h (List.length_eq_zero.mp h0)
  refine ⟨?_, ?_, ?_⟩
  · intro ctxErr done
    simp [Await.All]
  · intro done
    simp only [Await.All]
    rw [if_neg hlen]
  · intro done
    refine ⟨Await.settleSlots done 0 tasks, ?_⟩
    simp only [Await.All]
    rw [if_neg hlen]

/-- Witness for C5 at concrete inputs: empty call, pre-cancelled call, and a
normal call. -/
theorem claim_C5_witness :
    Await.All (T := Int) none (fun _ => none) [] = .error .errNoTasks ∧
    Await.All (T := Int) (some .ctxCanceled) (fun _ => none) [⟨1, none⟩] =
      .error .ctxCanceled ∧
    ∃ rs, Await.All (T := Int) none (fun _ => none) [⟨1, none⟩] = .ok rs := by
  have h := claim_C5_all_function_level_errors (T := Int) [⟨1, none⟩] .ctxCanceled (by simp)
  exact ⟨h.1 none (fun _ => none), h.2.1 (fun _ => none), h.2.2 (fun _ => none)⟩

/-- Counterexample to claim C2 as stated: a task that returns the value 5
alongside its error yields a `Result` with non-nil `Err` whose `Value` is 5,
not the zero value — the combinators forward the failing task's value
verbatim instead of zeroing it. -/
theorem claim_C2_counterexample :
    Await.AllSettled (T := Int) (fun _ => none) [⟨5, some (.base 0)⟩] =
      [⟨5, some (.base 0)⟩] ∧
    Await.All (T := Int) none (fun _ => none) [⟨5, some (.base 0)⟩] =
      .ok [⟨5, some (.base 0)⟩] ∧
    ¬ (∀ r ∈ Await.AllSettled (T := Int) (fun _ => none) [⟨5, some (.base 0)⟩],
         r.err ≠ none → r.value = (default : Int)) := by
  refine ⟨by decide, by decide, by decide⟩

/-- Claim C2 (amended): a combinator `Result`'s `Value` is exactly the value
the task returned next to its error (the zero value for
cancellation-synthesized failures), so the zero-value invariant holds
precisely when every failing task itself returns the zero value — the Go
convention, which every task in this repository follows. -/
theorem claim_C2_amended_zero_value_forwarded {T : Type} [Inhabited T]
    (done : Nat → Option GoError) (tasks : List (Await.Result T))
    (h : ∀ t ∈ tasks, t.err ≠ none → t.value = default) :
    (∀ r ∈ Await.AllSettled done tasks, r.err ≠ none → r.value = default) ∧
    (∀ (ctxErr : Option GoError) (rs : List (Await.Result T)),
       Await.All ctxErr done tasks = .ok rs →
       ∀ r ∈ rs, r.err ≠ none → r.value = default) := by
  have key : ∀ r ∈ Await.settleSlots done 0 tasks, r.err ≠ none → r.value = default := by
    intro r hr herr
    rcases settleSlots_mem done 0 tasks r hr with ⟨c, rfl⟩ | hmem
    · rfl
    · exact h r hmem herr
  constructor
  · exact key
  · intro ctxErr rs hok
    rcases Nat.eq_zero_or_pos tasks.length with hlen | hlen
    · simp only [Await.All] at hok
      rw [if_pos hlen] at hok
      cases hok
    · have hlen2 : tasks.length ≠ 0 := by omega
      cases ctxErr with
      | some c =>
        simp only [Await.All] at hok
        rw [if_neg hlen2] at hok
        cases hok
      | none =>
        simp only [Await.All] at hok
        rw [if_neg hlen2] at hok
        cases hok
        exact key

/-- Witness for C2 (amended): the failing slot of a concrete `AllSettled`
call, whose task returned the zero value, has zero `Value`. -/
theorem claim_C2_witness :
    (⟨0, some (.base 1)⟩ : Await.Result Int).value = default :=
  (claim_C2_amended_zero_value_forwarded (fun _ => none)
    [⟨0, some (.base 1)⟩, ⟨4, none⟩] (by decide)).1
    ⟨0, some (.base 1)⟩ (by decide) (by decide)

lemma anyLoop_all_fail {T : Type} [Inhabited T] :
    ∀ (comps : List (Await.Result T)) (acc : List GoError),
      (∀ r ∈ comps, r.err ≠ none) →
      Await.anyLoop comps acc =
        (default, some (.aggregateError (acc ++ comps.filterMap Await.Result.err))) := by
  intro comps
  induction comps with
  | nil => intro acc h; simp [Await.anyLoop]
  | cons r rest ih =>
    intro acc h
    cases hr : r.err with
    | none => exact absurd hr (h r (List.mem_cons_self r rest))
    | some e =>
      have h1 : Await.anyLoop (r :: rest) acc = Await.anyLoop rest (acc ++ [e]) := by
        rw [Await.anyLoop, hr]
      rw [h1, ih (acc ++ [e]) (fun x hx => h x (List.mem_cons_of_mem r hx)),
          List.filterMap_cons, hr, List.append_assoc]
      rfl

lemma anyLoop_agg_length {T : Type} [Inhabited T] :
    ∀ (comps : List (Await.Result T)) (acc : List GoError) (v : T) (l : List GoError),
      Await.anyLoop comps acc = (v, some (.aggregateError l)) →
      l.length = acc.length + comps.length := by
  intro comps
  induction comps with
  | nil =>
    intro acc v l h
    rw [Await.anyLoop] at h
    have hl : GoError.aggregateError acc = .aggregateError l := by
      have := congrArg Prod.snd h
      simpa using this
    cases hl
    simp
  | cons r rest ih =>
    intro acc v l h
    rw [Await.anyLoop] at h
    cases hr : r.err with
    | none =>
      rw [hr] at h
      simp at h
    | some e =>
      rw [hr] at h
      have := ih (acc ++ [e]) v l h
      simp at this
      simp [this]
      omega

lemma filterMap_err_length {T : Type} :
    ∀ (comps : List (Await.Result T)), (∀ r ∈ comps, r.err ≠ none) →
      (comps.filterMap Await.Result.err).length = comps.length := by
  intro comps
  induction comps with
  | nil => intro _; rfl
  | cons r rest ih =>
    intro h
    cases hr : r.err with
    | none => exact absurd hr (h r (List.mem_cons_self r rest))
    | some e =>
      rw [List.filterMap_cons, hr]
      simp only [List.length_cons]
      rw [ih (fun x hx => h x (List.mem_cons_of_mem r hx))]

/-- Claim C6: if every task fails, `Any` returns the zero value together with
an `AggregateError` holding exactly one error per task in observation
(completion) order; the empty sequence yields the dedicated no-tasks error;
and an `AggregateError` returned by the join is never empty. -/
theorem claim_C6_any_aggregate_errors {T : Type} [Inhabited T]
    (comps : List (Await.Result T)) :
    (comps ≠ [] → (∀ r ∈ comps, r.err ≠ none) →
       Await.Any comps =
         (default, some (.aggregateError (comps.filterMap Await.Result.err))) ∧
       (comps.filterMap Await.Result.err).length = comps.length) ∧
    Await.Any (T := T) [] = (default, some .errNoTasks) ∧
    (∀ (v : T) (l : List GoError),
       Await.Any comps = (v, some (.aggregateError l)) → l ≠ []) := by
  refine ⟨?_, by simp [Await.Any], ?_⟩
  · intro hne hall
    have hlen : comps.length ≠ 0 := by
      intro h0
      exact hne (List.length_eq_zero.mp h0)
    constructor
    · rw [Await.Any, if_neg hlen]
      rw [anyLoop_all_fail comps [] hall]
      rfl
    · exact filterMap_err_length comps hall
  · intro v l h
    cases comps with
    | nil =>
      rw [Await.Any] at h
      simp at h
    | cons r rest =>
      rw [Await.Any, if_neg (by simp)] at h
      have := anyLoop_agg_length (r :: rest) [] v l h
      simp at this
      intro hnil
      rw [hnil] at this
      simp at this

/-- Witness for C6: two failing completions aggregate both errors in
observation order; the no-tasks case and non-emptiness at the same input. -/
theorem claim_C6_witness :
    Await.Any (T := Int) [⟨0, some (.base 2)⟩, ⟨0, some (.base 1)⟩] =
      (0, some (.aggregateError [.base 2, .base 1])) ∧
    Await.Any (T := Int) [] = (0, some .errNoTasks) := by
  have h := claim_C6_any_aggregate_errors (T := Int) [⟨0, some (.base 2)⟩, ⟨0, some (.base 1)⟩]
  refine ⟨?_, h.2.1⟩
  have h2 := (h.1 (by simp) (by decide)).1
  simpa using h2

lemma errorsIs_self (u : GoError) : errorsIs u u = true := by
  cases u with
  | retryError l a => cases l <;> simp [errorsIs]
  | _ => simp [errorsIs]

lemma isPermanentError_wrap (u : GoError) :
    Retry.IsPermanentError (.permanentError u) = true := by
  rw [Retry.IsPermanentError, errorsIs]
  simp

lemma errorsIs_wrap_sentinel (u : GoError) :
    errorsIs (.permanentError u) .errPermanent = true := by
  rw [errorsIs]
  simp

lemma errorsIs_wrap_unwrap (u : GoError) :
    errorsIs (.permanentError u) u = true := by
  rw [errorsIs]
  simp [errorsIs_self]

lemma builtin_shouldRetry_eq (s : Retry.Strategy) (h : s.isBuiltin = true)
    (a : ℤ) (err : GoError) :
    s.ShouldRetry a err = !Retry.IsPermanentError err := by
  cases s with
  | exponential e => rfl
  | linear l => rfl
  | constant c => rfl
  | noDelay => rfl
  | custom c => simp [Retry.Strategy.isBuiltin] at h

lemma isLastAttempt_false {attempt maxAttempts : ℤ} (h : attempt < maxAttempts) :
    Retry.isLastAttempt attempt maxAttempts = false := by
  simp [Retry.isLastAttempt]
  omega

lemma isLastAttempt_true {attempt maxAttempts : ℤ} (h : maxAttempts ≤ attempt) :
    Retry.isLastAttempt attempt maxAttempts = true := by
  simp [Retry.isLastAttempt]
  omega

lemma doAux_stop_predicate {T : Type} (opts : Retry.Options) (ctx : Retry.Ctx)
    (fn : ℤ → Except GoError T) (fuel : Nat) (attempt : ℤ) (lastErr : Option GoError)
    (err : GoError)
    (h1 : ctx.errAt attempt = none) (h2 : fn attempt = .error err)
    (h3 : Retry.shouldRetryError opts err = false) :
    Retry.doAux opts ctx fn (fuel + 1) attempt lastErr = ⟨.error err, 1, [], []⟩ := by
  simp only [Retry.doAux, h1, h2, h3]
  rfl

lemma doAux_stop_strategy {T : Type} (opts : Retry.Options) (ctx : Retry.Ctx)
    (fn : ℤ → Except GoError T) (fuel : Nat) (attempt : ℤ) (lastErr : Option GoError)
    (err : GoError)
    (h1 : ctx.errAt attempt = none) (h2 : fn attempt = .error err)
    (h3 : Retry.shouldRetryError opts err = true)
    (h4 : opts.Strategy.ShouldRetry attempt err = false) :
    Retry.doAux opts ctx fn (fuel + 1) attempt lastErr = ⟨.error err, 1, [], []⟩ := by
  simp only [Retry.doAux, h1, h2, h3, h4]
  rfl

lemma doAux_break {T : Type} (opts : Retry.Options) (ctx : Retry.Ctx)
    (fn : ℤ → Except GoError T) (fuel : Nat) (attempt : ℤ) (lastErr : Option GoError)
    (err : GoError)
    (h1 : ctx.errAt attempt = none) (h2 : fn attempt = .error err)
    (h3 : Retry.shouldRetryError opts err = true)
    (h4 : opts.Strategy.ShouldRetry attempt err = true)
    (h5 : opts.MaxAttempts ≤ attempt) :
    Retry.doAux opts ctx fn (fuel + 1) attempt lastErr =
      ⟨.error (.retryError (some err) opts.MaxAttempts), 1, [], []⟩ := by
  simp only [Retry.doAux, h1, h2, h3, h4, isLastAttempt_true h5]
  rfl

lemma doAux_delay_cancel_step {T : Type} (opts : Retry.Options) (ctx : Retry.Ctx)
    (fn : ℤ → Except GoError T) (fuel : Nat) (attempt : ℤ) (lastErr : Option GoError)
    (err c : GoError)
    (h1 : ctx.errAt attempt = none) (h2 : fn attempt = .error err)
    (h3 : Retry.shouldRetryError opts err = true)
    (h4 : opts.Strategy.ShouldRetry attempt err = true)
    (h5 : attempt < opts.MaxAttempts)
    (h6 : ctx.delayCancel attempt = some c) :
    Retry.doAux opts ctx fn (fuel + 1) attempt lastErr =
      ⟨.error c, 1, if opts.OnRetry then [(attempt, err)] else [],
        [opts.Strategy.NextDelay attempt]⟩ := by
  simp only [Retry.doAux, h1, h2, h3, h4, isLastAttempt_false h5, h6]
  rfl

lemma doAux_continue {T : Type} (opts : Retry.Options) (ctx : Retry.Ctx)
    (fn : ℤ → Except GoError T) (fuel : Nat) (attempt : ℤ) (lastErr : Option GoError)
    (err : GoError)
    (h1 : ctx.errAt attempt = none) (h2 : fn attempt = .error err)
    (h3 : Retry.shouldRetryError opts err = true)
    (h4 : opts.Strategy.ShouldRetry attempt err = true)
    (h5 : attempt < opts.MaxAttempts)
    (h6 : ctx.delayCancel attempt = none) :
    Retry.doAux opts ctx fn (fuel + 1) attempt lastErr =
      ⟨(Retry.doAux opts ctx fn fuel (attempt + 1) (some err)).result,
       1 + (Retry.doAux opts ctx fn fuel (attempt + 1) (some err)).invocations,
       (if opts.OnRetry then [(attempt, err)] else []) ++
         (Retry.doAux opts ctx fn fuel (attempt + 1) (some err)).onRetryCalls,
       opts.Strategy.NextDelay attempt ::
         (Retry.doAux opts ctx fn fuel (attempt + 1) (some err)).waits⟩ := by
  simp only [Retry.doAux, h1, h2, h3, h4, isLastAttempt_false h5, h6]
  rfl

/-- Running the attempt loop when every attempt up to `MaxAttempts` fails
retryably under an uncancelled scope: the loop performs one invocation per
remaining attempt, ends in a `RetryError` carrying the final attempt's error
and `MaxAttempts`, never calls `OnRetry` for the final attempt, and waits
exactly once per non-final attempt. -/
lemma doAux_exhaust {T : Type} (opts : Retry.Options) (ctx : Retry.Ctx)
    (fn : ℤ → Except GoError T) (e : ℤ → GoError)
    (hrun : ∀ j : ℤ, 1 ≤ j → j ≤ opts.MaxAttempts →
      ctx.errAt j = none ∧ fn j = .error (e j) ∧
      Retry.shouldRetryError opts (e j) = true ∧
      opts.Strategy.ShouldRetry j (e j) = true ∧ ctx.delayCancel j = none) :
    ∀ (steps : Nat) (attempt : ℤ) (lastErr : Option GoError),
      1 ≤ attempt → attempt + steps = opts.MaxAttempts →
      (Retry.doAux opts ctx fn (steps + 1) attempt lastErr).result =
          .error (.retryError (some (e opts.MaxAttempts)) opts.MaxAttempts) ∧
      (Retry.doAux opts ctx fn (steps + 1) attempt lastErr).invocations = steps + 1 ∧
      (∀ p ∈ (Retry.doAux opts ctx fn (steps + 1) attempt lastErr).onRetryCalls,
         p.1 < opts.MaxAttempts) ∧
      (Retry.doAux opts ctx fn (steps + 1) attempt lastErr).waits.length = steps
  | 0, attempt, lastErr, h1, h2 => by
    have hAeq : attempt = opts.MaxAttempts := by omega
    obtain ⟨ha, hb, hc, hd, hdel⟩ := hrun attempt h1 (le_of_eq hAeq)
    rw [doAux_break opts ctx fn 0 attempt lastErr (e attempt) ha hb hc hd (le_of_eq hAeq.symm)]
    rw [hAeq]
    exact ⟨rfl, rfl, by simp, rfl⟩
  | steps + 1, attempt, lastErr, h1, h2 => by
    have hlt : attempt < opts.MaxAttempts := by omega
    obtain ⟨ha, hb, hc, hd, hdel⟩ := hrun attempt h1 (le_of_lt hlt)
    rw [doAux_continue opts ctx fn (steps + 1) attempt lastErr (e attempt) ha hb hc hd hlt hdel]
    obtain ⟨ih1, ih2, ih3, ih4⟩ :=
      doAux_exhaust opts ctx fn e hrun steps (attempt + 1) (some (e attempt))
        (by omega) (by omega)
    refine ⟨ih1, ?_, ?_, ?_⟩
    · show 1 + (Retry.doAux opts ctx fn (steps + 1) (attempt + 1) (some (e attempt))).invocations =
        steps + 1 + 1
      rw [ih2]
      omega
    · intro p hp
      rcases List.mem_append.mp hp with hmem | hmem
      · rcases hor : opts.OnRetry with _ | _
        · rw [hor] at hmem
          simp at hmem
        · rw [hor] at hmem
          simp at hmem
          rw [hmem]
          exact hlt
      · exact ih3 p hmem
    · show (opts.Strategy.NextDelay attempt ::
          (Retry.doAux opts ctx fn (steps + 1) (attempt + 1) (some (e attempt))).waits).length =
        steps + 1 + 1 - 1
      rw [List.length_cons, ih4]
      omega

/-- Running the attempt loop when the scope is cancelled during the
inter-attempt delay after attempt `k`: the loop returns that cancellation
error verbatim and performs exactly `k` invocations. -/
lemma doAux_delay_cancelled {T : Type} (opts : Retry.Options) (ctx : Retry.Ctx)
    (fn : ℤ → Except GoError T) (e : ℤ → GoError) (k : ℤ) (c : GoError)
    (hki : 1 ≤ k) (hkm : k < opts.MaxAttempts)
    (hrun : ∀ j : ℤ, 1 ≤ j → j ≤ k →
      ctx.errAt j = none ∧ fn j = .error (e j) ∧
      Retry.shouldRetryError opts (e j) = true ∧
      opts.Strategy.ShouldRetry j (e j) = true)
    (hdel : ∀ j : ℤ, 1 ≤ j → j < k → ctx.delayCancel j = none)
    (hdelk : ctx.delayCancel k = some c) :
    ∀ (steps : Nat) (attempt : ℤ) (lastErr : Option GoError) (fuel : Nat),
      1 ≤ attempt → attempt + steps = k → steps + 1 ≤ fuel →
      (Retry.doAux opts ctx fn fuel attempt lastErr).result = .error c ∧
      (Retry.doAux opts ctx fn fuel attempt lastErr).invocations = steps + 1
  | 0, attempt, lastErr, fuel, h1, h2, h3 => by
    obtain ⟨f, rfl⟩ : ∃ f, fuel = f + 1 := ⟨fuel - 1, by omega⟩
    have hAeq : attempt = k := by omega
    obtain ⟨ha, hb, hc, hd⟩ := hrun attempt h1 (le_of_eq hAeq)
    rw [doAux_delay_cancel_step opts ctx fn f attempt lastErr (e attempt) c ha hb hc hd
      (by omega) (by rw [hAeq]; exact hdelk)]
    exact ⟨rfl, rfl⟩
  | steps + 1, attempt, lastErr, fuel, h1, h2, h3 => by
    obtain ⟨f, rfl⟩ : ∃ f, fuel = f + 1 := ⟨fuel - 1, by omega⟩
    obtain ⟨ha, hb, hc, hd⟩ := hrun attempt h1 (by omega)
    rw [doAux_continue opts ctx fn f attempt lastErr (e attempt) ha hb hc hd (by omega)
      (hdel attempt h1 (by omega))]
    obtain ⟨ih1, ih2⟩ :=
      doAux_delay_cancelled opts ctx fn e k c hki hkm hrun hdel hdelk steps (attempt + 1)
        (some (e attempt)) f (by omega) (by omega) (by omega)
    refine ⟨ih1, ?_⟩
    show 1 + (Retry.doAux opts ctx fn f (attempt + 1) (some (e attempt))).invocations =
      steps + 1 + 1
    rw [ih2]
    omega

lemma doAux_ctx_cancelled {T : Type} (opts : Retry.Options) (ctx : Retry.Ctx)
    (fn : ℤ → Except GoError T) (fuel : Nat) (attempt : ℤ) (lastErr : Option GoError)
    (c : GoError) (h : ctx.errAt attempt = some c) :
    Retry.doAux opts ctx fn (fuel + 1) attempt lastErr = ⟨.error c, 0, [], []⟩ := by
  simp only [Retry.doAux, h]

/-- Claim C4: with a built-in strategy, an uncancelled scope and a task that
always fails with a non-permanent, `RetryIf`-eligible error, `Do` with
`MaxAttempts = n > 0` invokes the task exactly `n` times and returns a
`RetryError` whose `Attempts` is `n` and whose `LastError` is the final
attempt's error; `OnRetry` is never called for the final attempt and exactly
`n - 1` inter-attempt waits occur. -/
theorem claim_C4_do_exhausts_attempts {T : Type} (opts : Retry.Options) (ctx : Retry.Ctx)
    (fn : ℤ → Except GoError T) (e : ℤ → GoError) (n : ℤ)
    (hn : 0 < n) (hmax : opts.MaxAttempts = n)
    (hbuiltin : opts.Strategy.isBuiltin = true)
    (hctx : ∀ j : ℤ, ctx.errAt j = none)
    (hdelay : ∀ j : ℤ, ctx.delayCancel j = none)
    (hfn : ∀ j : ℤ, fn j = .error (e j))
    (hperm : ∀ j : ℤ, Retry.IsPermanentError (e j) = false)
    (helig : ∀ j : ℤ, Retry.shouldRetryError opts (e j) = true) :
    (Retry.Do opts ctx fn).result = .error (.retryError (some (e n)) n) ∧
    (Retry.Do opts ctx fn).invocations = n.toNat ∧
    (∀ p ∈ (Retry.Do opts ctx fn).onRetryCalls, p.1 < n) ∧
    (Retry.Do opts ctx fn).waits.length = (n - 1).toNat := by
  have hDo : Retry.Do opts ctx fn =
      Retry.doAux opts ctx fn ((n - 1).toNat + 1) 1 none := by
    simp only [Retry.Do]
    rw [if_neg (by omega)]
    have : opts.MaxAttempts.toNat = (n - 1).toNat + 1 := by omega
    rw [this]
  have hrun : ∀ j : ℤ, 1 ≤ j → j ≤ opts.MaxAttempts →
      ctx.errAt j = none ∧ fn j = .error (e j) ∧
      Retry.shouldRetryError opts (e j) = true ∧
      opts.Strategy.ShouldRetry j (e j) = true ∧ ctx.delayCancel j = none := by
    intro j hj1 hj2
    refine ⟨hctx j, hfn j, helig j, ?_, hdelay j⟩
    rw [builtin_shouldRetry_eq opts.Strategy hbuiltin j (e j), hperm j]
    rfl
  obtain ⟨r1, r2, r3, r4⟩ :=
    doAux_exhaust opts ctx fn e hrun (n - 1).toNat 1 none (by omega) (by omega)
  rw [hmax] at r1 r3
  rw [hDo]
  refine ⟨r1, ?_, r3, ?_⟩
  · rw [r2]
    omega
  · rw [r4]

/-- Witness for C4: three attempts with `NoDelay`, a constant non-permanent
error and no predicate: three invocations, `RetryError` with `Attempts = 3`,
two waits. -/
theorem claim_C4_witness :
    (Retry.Do (T := Int) ⟨.noDelay, 3, true, none⟩ ⟨fun _ => none, fun _ => none⟩
       (fun _ => .error (.base 1))).result = .error (.retryError (some (.base 1)) 3) ∧
    (Retry.Do (T := Int) ⟨.noDelay, 3, true, none⟩ ⟨fun _ => none, fun _ => none⟩
       (fun _ => .error (.base 1))).invocations = 3 ∧
    (Retry.Do (T := Int) ⟨.noDelay, 3, true, none⟩ ⟨fun _ => none, fun _ => none⟩
       (fun _ => .error (.base 1))).waits.length = 2 := by
  obtain ⟨r1, r2, r3, r4⟩ := claim_C4_do_exhausts_attempts (T := Int)
    ⟨.noDelay, 3, true, none⟩ ⟨fun _ => none, fun _ => none⟩
    (fun _ => .error (.base 1)) (fun _ => .base 1) 3
    (by norm_num) rfl rfl (fun _ => rfl) (fun _ => rfl) (fun _ => rfl)
    (fun _ => rfl) (fun _ => rfl)
  exact ⟨r1, by simpa using r2, by simpa using r4⟩

/-- Claim C8: `Do` surfaces scope cancellation verbatim — a scope already
cancelled at the start fails immediately with the cancellation error and no
invocation, and a scope cancelled during the inter-attempt delay after
attempt `k` makes `Do` return the cancellation error (not a `RetryError`)
with no invocation beyond the `k` already performed. -/
theorem claim_C8_do_cancellation {T : Type} (opts : Retry.Options) (ctx : Retry.Ctx)
    (fn : ℤ → Except GoError T) (c : GoError) :
    (0 < opts.MaxAttempts → ctx.errAt 1 = some c →
       Retry.Do opts ctx fn = ⟨.error c, 0, [], []⟩) ∧
    (∀ (e : ℤ → GoError) (k : ℤ),
       1 ≤ k → k < opts.MaxAttempts →
       (∀ j : ℤ, ctx.errAt j = none) →
       (∀ j : ℤ, 1 ≤ j → j < k → ctx.delayCancel j = none) →
       ctx.delayCancel k = some c →
       (∀ j : ℤ, fn j = .error (e j)) →
       (∀ j : ℤ, Retry.shouldRetryError opts (e j) = true) →
       (∀ j : ℤ, opts.Strategy.ShouldRetry j (e j) = true) →
       (Retry.Do opts ctx fn).result = .error c ∧
       (Retry.Do opts ctx fn).invocations = k.toNat) := by
  constructor
  · intro hm hc
    simp only [Retry.Do]
    rw [if_neg (by omega)]
    obtain ⟨f, hfuel⟩ : ∃ f, opts.MaxAttempts.toNat = f + 1 :=
      ⟨opts.MaxAttempts.toNat - 1, by omega⟩
    rw [hfuel]
    exact doAux_ctx_cancelled opts ctx fn f 1 none c hc
  · intro e k hk1 hkm hctx hdel hdelk hfn helig hstrat
    have hDo : Retry.Do opts ctx fn =
        Retry.doAux opts ctx fn opts.MaxAttempts.toNat 1 none := by
      simp only [Retry.Do]
      rw [if_neg (by omega)]
    have hrun : ∀ j : ℤ, 1 ≤ j → j ≤ k →
        ctx.errAt j = none ∧ fn j = .error (e j) ∧
        Retry.shouldRetryError opts (e j) = true ∧
        opts.Strategy.ShouldRetry j (e j) = true :=
      fun j _ _ => ⟨hctx j, hfn j, helig j, hstrat j⟩
    obtain ⟨r1, r2⟩ :=
      doAux_delay_cancelled opts ctx fn e k c hk1 hkm hrun hdel hdelk
        (k - 1).toNat 1 none opts.MaxAttempts.toNat (by omega) (by omega) (by omega)
    rw [hDo]
    exact ⟨r1, by rw [r2]; omega⟩

/-- Witness for C8: a pre-cancelled scope yields the cancellation error with
zero invocations; cancellation during the first inter-attempt delay yields
the cancellation error after exactly one invocation. -/
theorem claim_C8_witness :
    Retry.Do (T := Int) ⟨.noDelay, 3, false, none⟩
        ⟨fun _ => some .ctxCanceled, fun _ => none⟩ (fun _ => .ok 1) =
      ⟨.error .ctxCanceled, 0, [], []⟩ ∧
    (Retry.Do (T := Int) ⟨.noDelay, 3, false, none⟩
        ⟨fun _ => none, fun _ => some .ctxCanceled⟩
        (fun _ => .error (.base 0))).result = .error .ctxCanceled ∧
    (Retry.Do (T := Int) ⟨.noDelay, 3, false, none⟩
        ⟨fun _ => none, fun _ => some .ctxCanceled⟩
        (fun _ => .error (.base 0))).invocations = 1 := by
  refine ⟨(claim_C8_do_cancellation (T := Int) ⟨.noDelay, 3, false, none⟩
    ⟨fun _ => some .ctxCanceled, fun _ => none⟩ (fun _ => .ok 1) .ctxCanceled).1
      (by norm_num) rfl, ?_⟩
  have h := (claim_C8_do_cancellation (T := Int) ⟨.noDelay, 3, false, none⟩
    ⟨fun _ => none, fun _ => some .ctxCanceled⟩ (fun _ => .error (.base 0)) .ctxCanceled).2
    (fun _ => .base 0) 1 (by norm_num) (by norm_num) (fun _ => rfl)
    (fun j h1 h2 => absurd h2 (by omega)) rfl (fun _ => rfl) (fun _ => rfl)
    (fun _ => rfl)
  exact ⟨h.1, by simpa using h.2⟩

/-- Counterexample to claim C1 as stated: with a `CustomStrategy` whose nil
continuation function means "always continue", a task failing with a
permanent error is invoked again (twice with `MaxAttempts = 2`) and `Do`
returns a `RetryError`, so the stop is not independent of the configured
strategy; and even when a built-in strategy does stop (`NoDelay` shown), the
returned error is the `PermanentError` wrapper itself, not the underlying
error unwrapped from it. -/
theorem claim_C1_counterexample :
    (Retry.Do (T := Int) ⟨.custom ⟨none, none⟩, 2, false, none⟩
       ⟨fun _ => none, fun _ => none⟩
       (fun _ => .error (.permanentError (.base 0)))).invocations = 2 ∧
    (Retry.Do (T := Int) ⟨.custom ⟨none, none⟩, 2, false, none⟩
       ⟨fun _ => none, fun _ => none⟩
       (fun _ => .error (.permanentError (.base 0)))).result =
      .error (.retryError (some (.permanentError (.base 0))) 2) ∧
    (Retry.Do (T := Int) ⟨.noDelay, 5, false, none⟩ ⟨fun _ => none, fun _ => none⟩
       (fun _ => .error (.permanentError (.base 0)))).result =
      .error (.permanentError (.base 0)) ∧
    (Except.error (GoError.permanentError (.base 0)) :
        Except GoError Int) ≠ .error (.base 0) := by
  refine ⟨by decide, by decide, by decide, by decide⟩

/-- Claim C1 (amended): with a built-in strategy, a task whose first
invocation fails with a `Permanent`-wrapped error makes `Do` stop after
exactly that one invocation regardless of `RetryIf` and remaining attempts;
the returned error is the `PermanentError` wrapper as the task produced it,
which still matches the permanent-error sentinel via `errors.Is` and also
matches the underlying wrapped error. -/
theorem claim_C1_amended_permanent_stops {T : Type} (opts : Retry.Options) (ctx : Retry.Ctx)
    (fn : ℤ → Except GoError T) (u : GoError)
    (hbuiltin : opts.Strategy.isBuiltin = true) (hm : 0 < opts.MaxAttempts)
    (hc : ctx.errAt 1 = none) (hf : fn 1 = .error (.permanentError u)) :
    Retry.Do opts ctx fn = ⟨.error (.permanentError u), 1, [], []⟩ ∧
    errorsIs (.permanentError u) .errPermanent = true ∧
    errorsIs (.permanentError u) u = true := by
  refine ⟨?_, errorsIs_wrap_sentinel u, errorsIs_wrap_unwrap u⟩
  simp only [Retry.Do]
  rw [if_neg (by omega)]
  obtain ⟨f, hfuel⟩ : ∃ f, opts.MaxAttempts.toNat = f + 1 :=
    ⟨opts.MaxAttempts.toNat - 1, by omega⟩
  rw [hfuel]
  cases hp : Retry.shouldRetryError opts (.permanentError u) with
  | false => exact doAux_stop_predicate opts ctx fn f 1 none (.permanentError u) hc hf hp
  | true =>
    refine doAux_stop_strategy opts ctx fn f 1 none (.permanentError u) hc hf hp ?_
    rw [builtin_shouldRetry_eq opts.Strategy hbuiltin 1 (.permanentError u),
        isPermanentError_wrap]
    rfl

/-- Witness for C1 (amended): `NoDelay`, five allowed attempts, first
invocation fails permanently — one invocation, wrapper returned, sentinel and
underlying error both match. -/
theorem claim_C1_witness :
    Retry.Do (T := Int) ⟨.noDelay, 5, false, none⟩ ⟨fun _ => none, fun _ => none⟩
        (fun _ => .error (.permanentError (.base 7))) =
      ⟨.error (.permanentError (.base 7)), 1, [], []⟩ ∧
    errorsIs (.permanentError (.base 7)) .errPermanent = true ∧
    errorsIs (.permanentError (.base 7)) (.base 7) = true :=
  claim_C1_amended_permanent_stops (T := Int) ⟨.noDelay, 5, false, none⟩
    ⟨fun _ => none, fun _ => none⟩ (fun _ => .error (.permanentError (.base 7)))
    (.base 7) rfl (by norm_num) rfl rfl
